import Mathlib

/-!
Shallow embedding of the fixed-capacity resource-manager core:

* `LRUCache` models the templated C++ class `LRUCache<Key, Value>` from
  lru_cache.hpp: a recency-ordered list of (key, value) pairs (head = most
  recently used) plus hit/miss/eviction counters.  The C++ hash map
  `cache_map_` stores key→iterator associations whose domain is, by class
  invariant, exactly the set of keys of `cache_list_`; in the model a map
  lookup is a key lookup in `cache_list_` (the first occurrence, which is
  the only occurrence on every reachable state).
* `MemoryPool` models the C++ class `MemoryPool` from memory_pool.hpp.
  Machine addresses are naturals; the arena base address (the result of the
  single `operator new` reservation, non-null on success) is a parameter of
  construction.  The intrusive singly-linked free list (the first word of
  each free block holding the next link) is modelled as the `List Nat` of
  free addresses in chain order, head first.  The `size_t` counter
  `current_usage_` is decremented by `deallocate`, so its unsigned wraparound
  at zero is observable behaviour; it is therefore modelled with explicit
  arithmetic modulo 2^64.  The monotone counters (`hits_`, `misses_`,
  `evictions_`, `allocations_`, `deallocations_`) are only ever incremented
  and are modelled as unbounded naturals.

The thread pool of ThreadPool.cpp and the demo drivers are out of scope of
the claims and are not modelled.
-/

/-- One machine word past the largest `size_t` value on LP64 (2^64). -/
def size_t_mod : Nat := 2 ^ 64

/-- `sizeof(MemoryPool::FreeBlock)`: one pointer-sized link field (LP64). -/
def sizeof_FreeBlock : Nat := 8

/-- Lookup of the value stored under a key, first occurrence first — the
model of `cache_map_.find(key)` (on reachable states each key occurs at
most once in `cache_list_`). -/
def lookupKey {K V : Type} [DecidableEq K] : List (K × V) → K → Option V
  | [], _ => none
  | (k1, v) :: rest, k => if k1 = k then some v else lookupKey rest k

/-- Removal of the first entry with the given key — the list effect of
splicing that entry out of `cache_list_`. -/
def eraseKey {K V : Type} [DecidableEq K] : List (K × V) → K → List (K × V)
  | [], _ => []
  | (k1, v) :: rest, k => if k1 = k then rest else (k1, v) :: eraseKey rest k

/-- State of `LRUCache<Key, Value>` (lru_cache.hpp, lines 31-174).
`cache_list_` is ordered most recently used first. -/
structure LRUCache (K V : Type) where
  capacity_ : Nat
  cache_list_ : List (K × V)
  hits_ : Nat
  misses_ : Nat
  evictions_ : Nat
deriving DecidableEq

/-- The member-initialized state of the constructor (capacity set, empty
list and map, zero counters). -/
def LRUCache.empty {K V : Type} (capacity : Nat) : LRUCache K V :=
  { capacity_ := capacity, cache_list_ := [], hits_ := 0, misses_ := 0,
    evictions_ := 0 }

/-- `LRUCache::LRUCache(size_t capacity)`: after member initialization,
throws `std::invalid_argument` when the capacity is zero, leaving no usable
object; the error side of `Except` models the thrown exception. -/
def LRUCache.construct {K V : Type} (capacity : Nat) :
    Except String (LRUCache K V) :=
  if capacity = 0 then Except.error "Cache capacity must be > 0"
  else Except.ok (LRUCache.empty capacity)

/-- `LRUCache::get`: on a map miss, count a miss and return nullopt; on a
hit, count a hit, splice the entry to the front of the list and return its
value. -/
def LRUCache.get {K V : Type} [DecidableEq K] (c : LRUCache K V) (key : K) :
    Option V × LRUCache K V :=
  match lookupKey c.cache_list_ key with
  | none => (none, { c with misses_ := c.misses_ + 1 })
  | some v =>
    (some v, { c with hits_ := c.hits_ + 1,
                      cache_list_ := (key, v) :: eraseKey c.cache_list_ key })

/-- `LRUCache::evict_lru`: nothing on an empty list; otherwise drop the back
entry (erasing it from the map) and count one eviction. -/
def LRUCache.evict_lru {K V : Type} (c : LRUCache K V) : LRUCache K V :=
  match c.cache_list_ with
  | [] => c
  | _ :: _ => { c with cache_list_ := c.cache_list_.dropLast,
                       evictions_ := c.evictions_ + 1 }

/-- `LRUCache::put`: an existing key has its value replaced in place and its
entry spliced to the front; a new key first evicts the LRU entry when
`cache_list_.size() >= capacity_`, then is inserted at the front. -/
def LRUCache.put {K V : Type} [DecidableEq K] (c : LRUCache K V) (key : K)
    (value : V) : LRUCache K V :=
  match lookupKey c.cache_list_ key with
  | some _ => { c with cache_list_ := (key, value) :: eraseKey c.cache_list_ key }
  | none =>
    let c1 := if c.capacity_ ≤ c.cache_list_.length then c.evict_lru else c
    { c1 with cache_list_ := (key, value) :: c1.cache_list_ }

/-- `LRUCache::clear`: empty the list and the map, counters untouched. -/
def LRUCache.clear {K V : Type} (c : LRUCache K V) : LRUCache K V :=
  { c with cache_list_ := [] }

/-- `LRUCache::size`. -/
def LRUCache.size {K V : Type} (c : LRUCache K V) : Nat :=
  c.cache_list_.length

/-- `LRUCache::capacity`. -/
def LRUCache.capacity {K V : Type} (c : LRUCache K V) : Nat :=
  c.capacity_

/-- `LRUCache::hit_rate`: `hits_ * 100.0 / (hits_ + misses_)`, and `0.0`
when no lookup has happened.  Modelled over ℚ; for the concrete operand
sizes of the claims the double computation is exact. -/
def LRUCache.hit_rate {K V : Type} (c : LRUCache K V) : ℚ :=
  if c.hits_ + c.misses_ = 0 then 0
  else (c.hits_ : ℚ) * 100 / ((c.hits_ + c.misses_ : Nat) : ℚ)

/-- `LRUCache::reset_stats`. -/
def LRUCache.reset_stats {K V : Type} (c : LRUCache K V) : LRUCache K V :=
  { c with hits_ := 0, misses_ := 0, evictions_ := 0 }

/-- Folding a sequence of `put` calls over a cache. -/
def LRUCache.runPuts {K V : Type} [DecidableEq K] (c : LRUCache K V)
    (ops : List (K × V)) : LRUCache K V :=
  ops.foldl (fun acc kv => acc.put kv.1 kv.2) c

/-- State of `MemoryPool` (memory_pool.hpp, lines 29-182).  Addresses are
naturals; `free_list_` lists the free block addresses in chain order. -/
structure MemoryPool where
  memory_start_ : Nat
  block_size_ : Nat
  block_count_ : Nat
  free_list_ : List Nat
  allocations_ : Nat
  deallocations_ : Nat
  current_usage_ : Nat
deriving DecidableEq

/-- The loop body of `MemoryPool::init_free_list`: starting from `current`
(the last block) it pushes `block_count` addresses onto the front of the
accumulated free list, stepping `current` down by one block size each time.
(The final `current -= block_size` of the C++ loop produces a value that is
never read; truncated subtraction is harmless there.) -/
def init_free_list_loop (block_size : Nat) : Nat → Nat → List Nat → List Nat
  | _, 0, fl => fl
  | current, i + 1, fl =>
    init_free_list_loop block_size (current - block_size) i (current :: fl)

/-- `MemoryPool::init_free_list`: links all blocks back to front, so the
first block of the arena ends at the head of the free list. -/
def init_free_list (memory_start block_size block_count : Nat) : List Nat :=
  init_free_list_loop block_size
    (memory_start + (block_count - 1) * block_size) block_count []

/-- The fully initialized pool state: the block size is silently raised to
`sizeof(FreeBlock)` when smaller, the arena starts at `memory_start` (the
address returned by the single `operator new` reservation), and the free
list links every block. -/
def MemoryPool.init (block_size block_count memory_start : Nat) : MemoryPool :=
  let bs := if block_size < sizeof_FreeBlock then sizeof_FreeBlock else block_size
  { memory_start_ := memory_start, block_size_ := bs,
    block_count_ := block_count,
    free_list_ := init_free_list memory_start bs block_count,
    allocations_ := 0, deallocations_ := 0, current_usage_ := 0 }

/-- `MemoryPool::MemoryPool(size_t, size_t)`: corrects an undersized block
size, reserves the arena and links the free list.  The only throw in the
source is `std::bad_alloc` when the arena reservation itself fails — an
environmental out-of-memory condition outside this model (`operator new`
otherwise returns a non-null address, so the `!memory_start_` null check
never fires); no configuration value is checked, so construction always
succeeds here. -/
def MemoryPool.construct (block_size block_count memory_start : Nat) :
    Except String MemoryPool :=
  Except.ok (MemoryPool.init block_size block_count memory_start)

/-- `MemoryPool::allocate`: pop the head of the free list; `nullptr` (here
`none`) and no state change when the free list is empty. -/
def MemoryPool.allocate (p : MemoryPool) : Option Nat × MemoryPool :=
  match p.free_list_ with
  | [] => (none, p)
  | block :: rest =>
    (some block,
      { p with free_list_ := rest,
               allocations_ := p.allocations_ + 1,
               current_usage_ := (p.current_usage_ + 1) % size_t_mod })

/-- `MemoryPool::is_from_pool`: byte-range check
`memory_start_ <= ptr < memory_start_ + block_size_ * block_count_`. -/
def MemoryPool.is_from_pool (p : MemoryPool) (ptr : Nat) : Bool :=
  decide (p.memory_start_ ≤ ptr) &&
    decide (ptr < p.memory_start_ + p.block_size_ * p.block_count_)

/-- `MemoryPool::deallocate`: no-op on a null pointer; no-op (with a logged
warning) on a pointer outside the arena; otherwise push the address onto
the head of the free list, count a deallocation and decrement the `size_t`
usage counter (wrapping modulo 2^64 when it is zero). -/
def MemoryPool.deallocate (p : MemoryPool) (ptr : Nat) : MemoryPool :=
  if ptr = 0 then p
  else if p.is_from_pool ptr = false then p
  else
    { p with free_list_ := ptr :: p.free_list_,
             deallocations_ := p.deallocations_ + 1,
             current_usage_ := (p.current_usage_ + (size_t_mod - 1)) % size_t_mod }

/-- `MemoryPool::current_usage`. -/
def MemoryPool.current_usage (p : MemoryPool) : Nat :=
  p.current_usage_

/-- `MemoryPool::capacity`. -/
def MemoryPool.capacity (p : MemoryPool) : Nat :=
  p.block_count_

/-- A client call against the pool. -/
inductive PoolOp where
  | alloc : PoolOp
  | dealloc (ptr : Nat) : PoolOp
deriving DecidableEq

/-- One client call, keeping only the pool state. -/
def MemoryPool.step (p : MemoryPool) : PoolOp → MemoryPool
  | PoolOp.alloc => (p.allocate).2
  | PoolOp.dealloc ptr => p.deallocate ptr

/-- A sequence of client calls. -/
def MemoryPool.run (p : MemoryPool) (ops : List PoolOp) : MemoryPool :=
  ops.foldl MemoryPool.step p

/-- Ghost bookkeeping for a run: the list of outstanding addresses (handed
out by `allocate` and not yet returned).  `alloc` prepends the address the
pool is about to hand out; `dealloc ptr` removes `ptr`. -/
def outStep (p : MemoryPool) (out : List Nat) : PoolOp → List Nat
  | PoolOp.alloc =>
    match p.free_list_ with
    | [] => out
    | b :: _ => b :: out
  | PoolOp.dealloc ptr => out.erase ptr

/-- Ghost bookkeeping folded over a whole run. -/
def outRun : MemoryPool → List Nat → List PoolOp → List Nat
  | _, out, [] => out
  | p, out, op :: rest => outRun (p.step op) (outStep p out op) rest

/-- A call sequence is valid when every `dealloc` passes an address that is
outstanding at that point (so no double free and no free of a foreign or
never-handed-out address). -/
def validOps : MemoryPool → List Nat → List PoolOp → Bool
  | _, _, [] => true
  | p, out, PoolOp.alloc :: rest =>
    validOps (p.step PoolOp.alloc) (outStep p out PoolOp.alloc) rest
  | p, out, PoolOp.dealloc ptr :: rest =>
    decide (ptr ∈ out) &&
      validOps (p.step (PoolOp.dealloc ptr)) (outStep p out (PoolOp.dealloc ptr)) rest

/-- The addresses of the `block_count_` blocks the arena is sliced into. -/
def blockAddrs (p : MemoryPool) : List Nat :=
  (List.range p.block_count_).map (fun i => p.memory_start_ + i * p.block_size_)

/-- Results of `j` successive `allocate` calls. -/
def allocAddrs : MemoryPool → Nat → List (Option Nat)
  | _, 0 => []
  | p, j + 1 => (p.allocate).1 :: allocAddrs (p.allocate).2 j

/-! ### Helper lemmas about the cache list -/

theorem lookupKey_some_perm {K V : Type} [DecidableEq K] :
    ∀ (l : List (K × V)) (k : K) (v : V), lookupKey l k = some v →
      List.Perm ((k, v) :: eraseKey l k) l := by
  intro l
  induction l with
  | nil => intro k v h; simp [lookupKey] at h
  | cons hd tl ih =>
    intro k v h
    obtain ⟨k1, v1⟩ := hd
    by_cases hk : k1 = k
    · subst hk
      simp [lookupKey] at h
      subst h
      simp [eraseKey]
    · simp [lookupKey, hk] at h
      simp only [eraseKey, if_neg hk]
      exact (List.Perm.swap (k1, v1) (k, v) (eraseKey tl k)).trans
        (List.Perm.cons (k1, v1) (ih k v h))

theorem eraseKey_length {K V : Type} [DecidableEq K] :
    ∀ (l : List (K × V)) (k : K) (v : V), lookupKey l k = some v →
      (eraseKey l k).length + 1 = l.length := by
  intro l
  induction l with
  | nil => intro k v h; simp [lookupKey] at h
  | cons hd tl ih =>
    intro k v h
    obtain ⟨k1, v1⟩ := hd
    by_cases hk : k1 = k
    · simp [eraseKey, hk]
    · simp [lookupKey, hk] at h
      simp only [eraseKey, if_neg hk, List.length_cons]
      rw [← ih k v h]

/-! ### C1: the concrete capacity-3 scenario -/

/-- The capacity-3 cache after `Put(1,"Alice"); Put(2,"Bob"); Put(3,"Charlie")`. -/
def c1_filled : LRUCache Nat String :=
  (((LRUCache.empty 3).put 1 "Alice").put 2 "Bob").put 3 "Charlie"

/-- The same cache after the subsequent `Get(2)`. -/
def c1_touched : Option String × LRUCache Nat String :=
  c1_filled.get 2

/-- The same cache after the final `Put(4,"Diana")`. -/
def c1_final : LRUCache Nat String :=
  (c1_touched).2.put 4 "Diana"

/-- C1: on a capacity-3 cache, `Put(1,"Alice"); Put(2,"Bob");
Put(3,"Charlie"); Get(2); Put(4,"Diana")` evicts exactly key 1 — `Get(2)`
returns "Bob", the final contents are keys 4, 2, 3 (most recent first) with
one eviction counted, and afterwards `Get(1)` is absent while `Get(4)`
returns "Diana". -/
theorem claim_C1_scenario :
    (c1_touched).1 = some "Bob"
    ∧ c1_final.cache_list_.map Prod.fst = [4, 2, 3]
    ∧ c1_final.evictions_ = 1
    ∧ (c1_final.get 1).1 = none
    ∧ (((c1_final.get 1).2).get 4).1 = some "Diana" := by
  decide

/-! ### C4: allocation from an exhausted pool -/

/-- C4: `allocate` on a pool whose free list is empty returns the failure
signal and the pool state itself — usage, counters and free list all
unchanged. -/
theorem claim_C4_exhausted (p : MemoryPool) (h : p.free_list_ = []) :
    p.allocate = (none, p) := by
  unfold MemoryPool.allocate
  rw [h]

/-- Witness for C4: a pool constructed with zero blocks has an empty free
list, and allocating from it returns the failure signal unchanged. -/
theorem claim_C4_witness :
    (MemoryPool.init 16 0 1000).allocate = (none, MemoryPool.init 16 0 1000) :=
  claim_C4_exhausted (MemoryPool.init 16 0 1000) (by decide)

/-! ### C5: null and out-of-range deallocation -/

/-- C5: `deallocate` is a no-op on the null address and on every address
outside `[memory_start_, memory_start_ + block_size_ * block_count_)`: the
pool state (usage, deallocation counter, free list) is exactly unchanged,
and an address not already in the free list is not linked into it. -/
theorem claim_C5_rejected (p : MemoryPool) (ptr : Nat)
    (h : ptr = 0 ∨ ptr < p.memory_start_
        ∨ p.memory_start_ + p.block_size_ * p.block_count_ ≤ ptr) :
    p.deallocate ptr = p
    ∧ (ptr ∉ p.free_list_ → ptr ∉ (p.deallocate ptr).free_list_) := by
  have hnoop : p.deallocate ptr = p := by
    unfold MemoryPool.deallocate
    rcases h with h0 | hlt | hge
    · rw [if_pos h0]
    · have : p.is_from_pool ptr = false := by
        unfold MemoryPool.is_from_pool
        simp only [Bool.and_eq_false_iff, decide_eq_false_iff_not, not_le]
        left
        exact hlt
      by_cases h0 : ptr = 0
      · rw [if_pos h0]
      · rw [if_neg h0, if_pos this]
    · have : p.is_from_pool ptr = false := by
        unfold MemoryPool.is_from_pool
        simp only [Bool.and_eq_false_iff, decide_eq_false_iff_not, not_lt]
        right
        exact hge
      by_cases h0 : ptr = 0
      · rw [if_pos h0]
      · rw [if_neg h0, if_pos this]
  exact ⟨hnoop, fun hout => by rw [hnoop]; exact hout⟩

/-- Witness for C5: on a 2-block pool of 16-byte blocks at arena base 1000,
deallocating address 2000 (past the arena end 1032) changes nothing and
does not enter the free list. -/
theorem claim_C5_witness :
    (MemoryPool.init 16 2 1000).deallocate 2000 = MemoryPool.init 16 2 1000
    ∧ 2000 ∉ ((MemoryPool.init 16 2 1000).deallocate 2000).free_list_ := by
  have h := claim_C5_rejected (MemoryPool.init 16 2 1000) 2000
    (Or.inr (Or.inr (by decide)))
  exact ⟨h.1, h.2 (by decide)⟩

/-! ### C6: get semantics -/

/-- C6: for every key, `get` on a cache containing the key counts one hit,
returns the stored value and moves its entry to the head of the recency
sequence (same entries, reordered), touching nothing else; `get` on a cache
not containing the key counts one miss, returns absent and leaves the
sequence (and hence the index) structurally unchanged. -/
theorem claim_C6_get (K V : Type) [DecidableEq K] (c : LRUCache K V) (k : K) :
    (∀ v, lookupKey c.cache_list_ k = some v →
      (c.get k).1 = some v
      ∧ (c.get k).2.hits_ = c.hits_ + 1
      ∧ (c.get k).2.misses_ = c.misses_
      ∧ (c.get k).2.evictions_ = c.evictions_
      ∧ (c.get k).2.capacity_ = c.capacity_
      ∧ (c.get k).2.cache_list_.head? = some (k, v)
      ∧ List.Perm (c.get k).2.cache_list_ c.cache_list_)
    ∧ (lookupKey c.cache_list_ k = none →
      (c.get k).1 = none
      ∧ (c.get k).2 = { c with misses_ := c.misses_ + 1 }) := by
  constructor
  · intro v h
    unfold LRUCache.get
    rw [h]
    exact ⟨rfl, rfl, rfl, rfl, rfl, rfl, lookupKey_some_perm c.cache_list_ k v h⟩
  · intro h
    unfold LRUCache.get
    rw [h]
    exact ⟨rfl, rfl⟩

/-- Witness for C6: on the cache holding keys 5 and 7, `get 5` hits,
promotes and returns the value; `get 9` misses and only bumps the miss
counter. -/
theorem claim_C6_witness :
    ((((LRUCache.empty 2).put 5 "five").put 7 "seven").get 5).1 = some "five"
    ∧ ((((LRUCache.empty 2).put 5 "five").put 7 "seven").get 5).2.hits_ = 1
    ∧ ((((LRUCache.empty 2).put 5 "five").put 7 "seven").get 9).1 = none := by
  have h5 := (claim_C6_get Nat String
      (((LRUCache.empty 2).put 5 "five").put 7 "seven") 5).1 "five" (by decide)
  have h9 := (claim_C6_get Nat String
      (((LRUCache.empty 2).put 5 "five").put 7 "seven") 9).2 (by decide)
  exact ⟨h5.1, by rw [h5.2.1]; decide, h9.1⟩

/-! ### C7: put on an existing key -/

/-- C7: for every key already present, `put` replaces the stored value,
promotes the entry to the head of the recency sequence, and leaves the hit,
miss and eviction counters and the cache size (and capacity) unchanged — no
eviction happens even at capacity. -/
theorem claim_C7_put_existing (K V : Type) [DecidableEq K]
    (c : LRUCache K V) (k : K) (v v0 : V)
    (h : lookupKey c.cache_list_ k = some v0) :
    (c.put k v).hits_ = c.hits_
    ∧ (c.put k v).misses_ = c.misses_
    ∧ (c.put k v).evictions_ = c.evictions_
    ∧ (c.put k v).size = c.size
    ∧ (c.put k v).capacity_ = c.capacity_
    ∧ (c.put k v).cache_list_.head? = some (k, v)
    ∧ lookupKey (c.put k v).cache_list_ k = some v := by
  unfold LRUCache.put
  rw [h]
  refine ⟨rfl, rfl, rfl, ?_, rfl, rfl, ?_⟩
  · show ((k, v) :: eraseKey c.cache_list_ k).length = c.cache_list_.length
    rw [List.length_cons, eraseKey_length c.cache_list_ k v0 h]
  · show lookupKey ((k, v) :: eraseKey c.cache_list_ k) k = some v
    simp [lookupKey]

/-- Witness for C7: overwriting key 5 on a full 2-entry cache keeps size 2,
all counters at 0, and puts (5, "FIVE") at the head. -/
theorem claim_C7_witness :
    ((((LRUCache.empty 2).put 5 "five").put 7 "seven").put 5 "FIVE").size = 2
    ∧ ((((LRUCache.empty 2).put 5 "five").put 7 "seven").put 5 "FIVE").evictions_ = 0
    ∧ ((((LRUCache.empty 2).put 5 "five").put 7 "seven").put 5 "FIVE").cache_list_.head?
        = some (5, "FIVE") := by
  have h := claim_C7_put_existing Nat String
      (((LRUCache.empty 2).put 5 "five").put 7 "seven") 5 "FIVE" "five" (by decide)
  exact ⟨by rw [h.2.2.2.1]; decide, by rw [h.2.2.1]; decide, h.2.2.2.2.2.1⟩

/-! ### C8: free-list initialization order -/

theorem init_free_list_loop_eq (block_size memory_start : Nat) :
    ∀ (k : Nat) (fl : List Nat),
      init_free_list_loop block_size (memory_start + k * block_size) (k + 1) fl
        = (List.range (k + 1)).map (fun i => memory_start + i * block_size) ++ fl := by
  intro k
  induction k with
  | zero =>
    intro fl
    simp [init_free_list_loop, List.range_succ]
  | succ n ih =>
    intro fl
    have hsub : memory_start + (n + 1) * block_size - block_size
        = memory_start + n * block_size := by
      rw [Nat.succ_mul]
      omega
    have hunfold : init_free_list_loop block_size
          (memory_start + (n + 1) * block_size) (n + 1 + 1) fl
        = init_free_list_loop block_size
            (memory_start + (n + 1) * block_size - block_size) (n + 1)
            ((memory_start + (n + 1) * block_size) :: fl) := rfl
    rw [hunfold, hsub, ih, List.range_succ (n := n + 1)]
    simp

theorem init_free_list_eq (memory_start block_size block_count : Nat) :
    init_free_list memory_start block_size block_count
      = (List.range block_count).map (fun i => memory_start + i * block_size) := by
  cases block_count with
  | zero => simp [init_free_list, init_free_list_loop]
  | succ n =>
    unfold init_free_list
    have hn : n + 1 - 1 = n := rfl
    rw [hn, init_free_list_loop_eq]
    simp

theorem allocAddrs_take (j : Nat) :
    ∀ p : MemoryPool, j ≤ p.free_list_.length →
      allocAddrs p j = (p.free_list_.take j).map some := by
  induction j with
  | zero =>
    intro p _
    simp [allocAddrs]
  | succ n ih =>
    intro p h
    match hfl : p.free_list_ with
    | [] => rw [hfl] at h; simp at h
    | b :: rest =>
      have halloc : p.allocate
          = (some b, { p with free_list_ := rest,
                              allocations_ := p.allocations_ + 1,
                              current_usage_ := (p.current_usage_ + 1) % size_t_mod }) := by
        unfold MemoryPool.allocate
        rw [hfl]
      have hrest : n ≤ rest.length := by
        rw [hfl] at h
        simpa using h
      rw [allocAddrs, halloc]
      simp only []
      rw [ih _ hrest]
      simp [List.take_succ_cons]

/-- C8: a freshly constructed pool links all `block_count` blocks into the
free list in increasing arena-address order — `memory_start`, then
`memory_start + block_size`, and so on — so successive `allocate` calls
return exactly that address sequence. -/
theorem claim_C8_pop_order (block_size block_count memory_start : Nat) :
    (MemoryPool.init block_size block_count memory_start).free_list_
      = (List.range block_count).map
          (fun i => memory_start
            + i * (MemoryPool.init block_size block_count memory_start).block_size_)
    ∧ allocAddrs (MemoryPool.init block_size block_count memory_start) block_count
      = (List.range block_count).map
          (fun i => some (memory_start
            + i * (MemoryPool.init block_size block_count memory_start).block_size_)) := by
  have hfl : (MemoryPool.init block_size block_count memory_start).free_list_
      = init_free_list memory_start
          (MemoryPool.init block_size block_count memory_start).block_size_
          block_count := rfl
  have h1 : (MemoryPool.init block_size block_count memory_start).free_list_
      = (List.range block_count).map
          (fun i => memory_start
            + i * (MemoryPool.init block_size block_count memory_start).block_size_) := by
    rw [hfl, init_free_list_eq]
  refine ⟨h1, ?_⟩
  have hlen : block_count
      ≤ (MemoryPool.init block_size block_count memory_start).free_list_.length := by
    rw [h1]
    simp
  rw [allocAddrs_take block_count _ hlen, h1]
  rw [List.take_of_length_le (by simp), List.map_map]
  rfl

/-! ### C9: hit rate -/

/-- A cache that has seen exactly 3 hits and 1 miss: key 1 is inserted,
read three times (hits), then absent key 2 is read once (miss). -/
def hitRateScenario : LRUCache Nat String :=
  let c0 := (LRUCache.empty 2 : LRUCache Nat String).put 1 "one"
  let c1 := (c0.get 1).2
  let c2 := (c1.get 1).2
  let c3 := (c2.get 1).2
  (c3.get 2).2

/-- C9: `hit_rate` is hits / (hits + misses) × 100, is exactly 0 before any
lookup, and reads 75 after exactly 3 hits and 1 miss. -/
theorem claim_C9_hit_rate :
    (∀ c : LRUCache Nat String, c.hits_ + c.misses_ = 0 → c.hit_rate = 0)
    ∧ (∀ c : LRUCache Nat String, c.hits_ + c.misses_ ≠ 0 →
        c.hit_rate = (c.hits_ : ℚ) / ((c.hits_ : ℚ) + (c.misses_ : ℚ)) * 100)
    ∧ hitRateScenario.hits_ = 3
    ∧ hitRateScenario.misses_ = 1
    ∧ hitRateScenario.hit_rate = 75 := by
  have hgen : ∀ c : LRUCache Nat String, c.hits_ + c.misses_ ≠ 0 →
      c.hit_rate = (c.hits_ : ℚ) / ((c.hits_ : ℚ) + (c.misses_ : ℚ)) * 100 := by
    intro c h
    unfold LRUCache.hit_rate
    rw [if_neg h]
    push_cast
    rw [div_mul_eq_mul_div]
  have h3 : hitRateScenario.hits_ = 3 := by decide
  have h1 : hitRateScenario.misses_ = 1 := by decide
  refine ⟨?_, hgen, h3, h1, ?_⟩
  · intro c h
    unfold LRUCache.hit_rate
    rw [if_pos h]
  · rw [hgen hitRateScenario (by rw [h3, h1]; decide), h3, h1]
    norm_num

/-- Witness for C9: a fresh cache reads hit rate 0, and the 3-hit 1-miss
cache satisfies the general formula. -/
theorem claim_C9_witness :
    (LRUCache.empty 4 : LRUCache Nat String).hit_rate = 0
    ∧ hitRateScenario.hit_rate
        = (hitRateScenario.hits_ : ℚ)
            / ((hitRateScenario.hits_ : ℚ) + (hitRateScenario.misses_ : ℚ)) * 100 :=
  ⟨claim_C9_hit_rate.1 _ rfl, claim_C9_hit_rate.2.1 _ (by decide)⟩

/-! ### C3: zero-configuration construction (corrected) -/

/-- Counterexample to C3 as stated: constructing the allocator with block
count 0 does NOT fail — `MemoryPool(8, 0)` runs no configuration check, so
construction succeeds and yields a usable (empty) pool whose `allocate`
merely signals exhaustion and whose accessors answer normally. -/
theorem claim_C3_counterexample :
    (MemoryPool.construct 8 0 1000).isOk = true
    ∧ (MemoryPool.init 8 0 1000).capacity = 0
    ∧ (MemoryPool.init 8 0 1000).allocate = (none, MemoryPool.init 8 0 1000) := by
  refine ⟨rfl, rfl, ?_⟩
  decide

/-- C3 amended: constructing the cache with capacity 0 fails immediately
(exception; no usable object is produced).  The allocator, however, checks
no configuration value: block size 0 is silently raised to the minimum
link-field size instead of failing, and block count 0 is accepted —
construction always succeeds (only an environmental out-of-memory condition
can abort it), yielding an empty pool on which `allocate` signals
exhaustion. -/
theorem claim_C3_amended (capacity : Nat) (h : capacity = 0) :
    (LRUCache.construct capacity : Except String (LRUCache Nat String)).isOk = false
    ∧ (∀ block_size block_count memory_start : Nat,
        (MemoryPool.construct block_size block_count memory_start).isOk = true)
    ∧ (∀ block_count memory_start : Nat,
        (MemoryPool.init 0 block_count memory_start).block_size_ = sizeof_FreeBlock)
    ∧ (MemoryPool.init 8 0 1000).allocate = (none, MemoryPool.init 8 0 1000) := by
  subst h
  refine ⟨rfl, fun _ _ _ => rfl, fun _ _ => rfl, ?_⟩
  decide

/-- Witness for C3 (amended), at capacity 0. -/
theorem claim_C3_witness :
    (LRUCache.construct 0 : Except String (LRUCache Nat String)).isOk = false :=
  (claim_C3_amended 0 rfl).1

/-! ### Arena block addresses -/

theorem blockAddrs_length (p : MemoryPool) :
    (blockAddrs p).length = p.block_count_ := by
  simp [blockAddrs]

theorem blockAddrs_range (p : MemoryPool) (hbs : 0 < p.block_size_) (a : Nat)
    (ha : a ∈ blockAddrs p) :
    p.memory_start_ ≤ a
    ∧ a < p.memory_start_ + p.block_size_ * p.block_count_ := by
  unfold blockAddrs at ha
  rw [List.mem_map] at ha
  obtain ⟨i, hi, rfl⟩ := ha
  rw [List.mem_range] at hi
  constructor
  · omega
  · have h2 : i * p.block_size_ < p.block_count_ * p.block_size_ :=
      mul_lt_mul_of_pos_right hi hbs
    rw [mul_comm p.block_size_ p.block_count_]
    omega

/-! ### C10: misaligned in-range deallocation is accepted -/

/-- C10: the deallocation validation is a byte-range check only.  Every
address inside the arena range that is NOT a block start address is still
accepted by `deallocate`: it is linked onto the head of the free list, the
deallocation counter is incremented and usage is decremented — so the free
list now holds an address that is not in the arena's block partition. -/
theorem claim_C10_misaligned_accepted (p : MemoryPool) (ptr : Nat)
    (hstart : 0 < p.memory_start_)
    (hlo : p.memory_start_ ≤ ptr)
    (hhi : ptr < p.memory_start_ + p.block_size_ * p.block_count_)
    (hmis : ∀ i, i < p.block_count_ → ptr ≠ p.memory_start_ + i * p.block_size_)
    (hu0 : 0 < p.current_usage_) (hu1 : p.current_usage_ < size_t_mod) :
    (p.deallocate ptr).free_list_ = ptr :: p.free_list_
    ∧ (p.deallocate ptr).deallocations_ = p.deallocations_ + 1
    ∧ (p.deallocate ptr).current_usage_ = p.current_usage_ - 1
    ∧ ptr ∉ blockAddrs p
    ∧ ptr ∈ (p.deallocate ptr).free_list_ := by
  have hptr0 : ptr ≠ 0 := by omega
  have hfp : p.is_from_pool ptr = true := by
    unfold MemoryPool.is_from_pool
    simp only [Bool.and_eq_true, decide_eq_true_eq]
    exact ⟨hlo, hhi⟩
  have hpush : p.deallocate ptr
      = { p with free_list_ := ptr :: p.free_list_,
                 deallocations_ := p.deallocations_ + 1,
                 current_usage_ := (p.current_usage_ + (size_t_mod - 1)) % size_t_mod } := by
    unfold MemoryPool.deallocate
    rw [if_neg hptr0, hfp]
    simp
  have hM : 0 < size_t_mod := by decide
  have husage : (p.current_usage_ + (size_t_mod - 1)) % size_t_mod
      = p.current_usage_ - 1 := by
    have heq : p.current_usage_ + (size_t_mod - 1)
        = (p.current_usage_ - 1) + size_t_mod := by omega
    rw [heq, Nat.add_mod_right, Nat.mod_eq_of_lt (by omega)]
  have hnb : ptr ∉ blockAddrs p := by
    unfold blockAddrs
    rw [List.mem_map]
    rintro ⟨i, hi, hei⟩
    rw [List.mem_range] at hi
    exact hmis i hi hei.symm
  rw [hpush]
  exact ⟨rfl, rfl, husage, hnb, List.mem_cons_self _ _⟩

/-- Witness for C10: on the 2-block pool (16-byte blocks, arena base 1000)
with one block outstanding, deallocating the interior address 1003 (not a
block start) is accepted and 1003 enters the free list. -/
theorem claim_C10_witness :
    (((MemoryPool.init 16 2 1000).allocate).2.deallocate 1003).free_list_
      = 1003 :: ((MemoryPool.init 16 2 1000).allocate).2.free_list_
    ∧ 1003 ∉ blockAddrs ((MemoryPool.init 16 2 1000).allocate).2
    ∧ 1003 ∈ (((MemoryPool.init 16 2 1000).allocate).2.deallocate 1003).free_list_ := by
  have h := claim_C10_misaligned_accepted ((MemoryPool.init 16 2 1000).allocate).2 1003
    (by decide) (by decide) (by decide) (by decide) (by decide) (by decide)
  exact ⟨h.1, h.2.2.2.1, h.2.2.2.2⟩

/-! ### C2: capacity invariants

The pool invariant ties a pool state to the ghost list of outstanding
addresses: the free list and the outstanding addresses together are a
permutation of the arena's block addresses (the free-list partition), and
the usage counter counts the outstanding addresses. -/

structure PoolInv (p : MemoryPool) (out : List Nat) : Prop where
  start_pos : 0 < p.memory_start_
  bs_pos : 0 < p.block_size_
  count_small : p.block_count_ < size_t_mod
  usage_eq : p.current_usage_ = out.length
  part : List.Perm (p.free_list_ ++ out) (blockAddrs p)

theorem poolInv_step (p : MemoryPool) (out : List Nat) (op : PoolOp)
    (inv : PoolInv p out)
    (hv : ∀ ptr, op = PoolOp.dealloc ptr → ptr ∈ out) :
    PoolInv (p.step op) (outStep p out op) := by
  cases op with
  | alloc =>
    match hfl : p.free_list_ with
    | [] =>
      have hstep : p.step PoolOp.alloc = p := by
        show (p.allocate).2 = p
        unfold MemoryPool.allocate
        rw [hfl]
      have hout : outStep p out PoolOp.alloc = out := by
        unfold outStep
        rw [hfl]
      rw [hstep, hout]
      exact inv
    | b :: rest =>
      have hstep : p.step PoolOp.alloc
          = { p with free_list_ := rest,
                     allocations_ := p.allocations_ + 1,
                     current_usage_ := (p.current_usage_ + 1) % size_t_mod } := by
        show (p.allocate).2 = _
        unfold MemoryPool.allocate
        rw [hfl]
      have hout : outStep p out PoolOp.alloc = b :: out := by
        unfold outStep
        rw [hfl]
      rw [hstep, hout]
      have hlen := inv.part.length_eq
      rw [List.length_append, blockAddrs_length, hfl, List.length_cons] at hlen
      refine ⟨inv.start_pos, inv.bs_pos, inv.count_small, ?_, ?_⟩
      · show (p.current_usage_ + 1) % size_t_mod = (b :: out).length
        rw [inv.usage_eq, List.length_cons]
        have hcs := inv.count_small
        exact Nat.mod_eq_of_lt (by omega)
      · show List.Perm (rest ++ (b :: out)) (blockAddrs p)
        have h2 : List.Perm (b :: (rest ++ out)) (blockAddrs p) := by
          have hceq : (b :: rest) ++ out = b :: (rest ++ out) := rfl
          rw [← hceq, ← hfl]
          exact inv.part
        exact List.perm_middle.trans h2
  | dealloc ptr =>
    have hmem : ptr ∈ out := hv ptr rfl
    have hba : ptr ∈ blockAddrs p := inv.part.mem_iff.mp (List.mem_append_right _ hmem)
    have hrange := blockAddrs_range p inv.bs_pos ptr hba
    obtain ⟨hr1, hr2⟩ := hrange
    have hsp := inv.start_pos
    have hptr0 : ptr ≠ 0 := by omega
    have hfp : p.is_from_pool ptr = true := by
      unfold MemoryPool.is_from_pool
      simp only [Bool.and_eq_true, decide_eq_true_eq]
      exact ⟨hr1, hr2⟩
    have hstep : p.step (PoolOp.dealloc ptr)
        = { p with free_list_ := ptr :: p.free_list_,
                   deallocations_ := p.deallocations_ + 1,
                   current_usage_ := (p.current_usage_ + (size_t_mod - 1)) % size_t_mod } := by
      show p.deallocate ptr = _
      unfold MemoryPool.deallocate
      rw [if_neg hptr0, hfp]
      simp
    have hout : outStep p out (PoolOp.dealloc ptr) = out.erase ptr := rfl
    rw [hstep, hout]
    have hlen := inv.part.length_eq
    rw [List.length_append, blockAddrs_length] at hlen
    have hpos : 0 < out.length := List.length_pos.mpr (List.ne_nil_of_mem hmem)
    have hM : 0 < size_t_mod := by decide
    refine ⟨hsp, inv.bs_pos, inv.count_small, ?_, ?_⟩
    · show (p.current_usage_ + (size_t_mod - 1)) % size_t_mod = (out.erase ptr).length
      rw [inv.usage_eq, List.length_erase_of_mem hmem]
      have hcs := inv.count_small
      have heq : out.length + (size_t_mod - 1) = (out.length - 1) + size_t_mod := by omega
      rw [heq, Nat.add_mod_right, Nat.mod_eq_of_lt (by omega)]
    · show List.Perm ((ptr :: p.free_list_) ++ out.erase ptr) (blockAddrs p)
      have h1 : List.Perm out (ptr :: out.erase ptr) := List.perm_cons_erase hmem
      have h2 : List.Perm (p.free_list_ ++ (ptr :: out.erase ptr)) (p.free_list_ ++ out) :=
        List.Perm.append_left _ h1.symm
      have h3 : List.Perm ((ptr :: p.free_list_) ++ out.erase ptr)
          (p.free_list_ ++ (ptr :: out.erase ptr)) := by
        show List.Perm (ptr :: (p.free_list_ ++ out.erase ptr)) _
        exact List.perm_middle.symm
      exact (h3.trans h2).trans inv.part

theorem poolInv_run : ∀ (ops : List PoolOp) (p : MemoryPool) (out : List Nat),
    PoolInv p out → validOps p out ops = true →
    PoolInv (p.run ops) (outRun p out ops) := by
  intro ops
  induction ops with
  | nil =>
    intro p out inv _
    exact inv
  | cons op rest ih =>
    intro p out inv hv
    have hrun : p.run (op :: rest) = (p.step op).run rest := rfl
    have hout : outRun p out (op :: rest) = outRun (p.step op) (outStep p out op) rest := rfl
    rw [hrun, hout]
    cases op with
    | alloc =>
      have hv2 : validOps (p.step PoolOp.alloc) (outStep p out PoolOp.alloc) rest = true := hv
      refine ih _ _ (poolInv_step p out PoolOp.alloc inv ?_) hv2
      intro ptr h
      cases h
    | dealloc ptr =>
      have hv0 : (decide (ptr ∈ out)
          && validOps (p.step (PoolOp.dealloc ptr))
               (outStep p out (PoolOp.dealloc ptr)) rest) = true := hv
      rw [Bool.and_eq_true] at hv0
      have hmem : ptr ∈ out := of_decide_eq_true hv0.1
      refine ih _ _ (poolInv_step p out (PoolOp.dealloc ptr) inv ?_) hv0.2
      intro q hq
      injection hq with h
      rw [← h]
      exact hmem

theorem run_block_count : ∀ (ops : List PoolOp) (p : MemoryPool),
    (p.run ops).block_count_ = p.block_count_ := by
  intro ops
  induction ops with
  | nil =>
    intro p
    rfl
  | cons op rest ih =>
    intro p
    have hrun : p.run (op :: rest) = (p.step op).run rest := rfl
    rw [hrun, ih]
    cases op with
    | alloc =>
      show ((p.allocate).2).block_count_ = p.block_count_
      unfold MemoryPool.allocate
      match hfl : p.free_list_ with
      | [] => rfl
      | b :: rest2 => rfl
    | dealloc ptr =>
      show (p.deallocate ptr).block_count_ = p.block_count_
      unfold MemoryPool.deallocate
      by_cases h0 : ptr = 0
      · rw [if_pos h0]
      · rw [if_neg h0]
        by_cases hfp : p.is_from_pool ptr = false
        · rw [if_pos hfp]
        · rw [if_neg hfp]

theorem poolInv_init (block_size block_count memory_start : Nat)
    (hstart : 0 < memory_start) (hcount : block_count < size_t_mod) :
    PoolInv (MemoryPool.init block_size block_count memory_start) [] := by
  refine ⟨hstart, ?_, hcount, rfl, ?_⟩
  · show 0 < (if block_size < sizeof_FreeBlock then sizeof_FreeBlock else block_size)
    split
    · decide
    · next h =>
      have h8 : 0 < sizeof_FreeBlock := by decide
      omega
  · rw [List.append_nil]
    have hfl : (MemoryPool.init block_size block_count memory_start).free_list_
        = init_free_list memory_start
            (MemoryPool.init block_size block_count memory_start).block_size_
            block_count := rfl
    rw [hfl, init_free_list_eq]
    exact List.Perm.refl _

/-! ### Cache size invariant helpers -/

theorem evict_capacity {K V : Type} (c : LRUCache K V) :
    (c.evict_lru).capacity_ = c.capacity_ := by
  unfold LRUCache.evict_lru
  match c.cache_list_ with
  | [] => rfl
  | _ :: _ => rfl

theorem put_capacity_eq {K V : Type} [DecidableEq K] (c : LRUCache K V)
    (k : K) (v : V) : (c.put k v).capacity_ = c.capacity_ := by
  unfold LRUCache.put
  match h : lookupKey c.cache_list_ k with
  | some v0 => rfl
  | none =>
    show (if c.capacity_ ≤ c.cache_list_.length then c.evict_lru else c).capacity_
        = c.capacity_
    by_cases hfull : c.capacity_ ≤ c.cache_list_.length
    · rw [if_pos hfull]
      exact evict_capacity c
    · rw [if_neg hfull]

theorem put_size_le {K V : Type} [DecidableEq K] (c : LRUCache K V) (k : K) (v : V)
    (hcap : 0 < c.capacity_) (hle : c.cache_list_.length ≤ c.capacity_) :
    (c.put k v).cache_list_.length ≤ c.capacity_ := by
  unfold LRUCache.put
  match h : lookupKey c.cache_list_ k with
  | some v0 =>
    show ((k, v) :: eraseKey c.cache_list_ k).length ≤ c.capacity_
    rw [List.length_cons, eraseKey_length c.cache_list_ k v0 h]
    exact hle
  | none =>
    show ((k, v) :: (if c.capacity_ ≤ c.cache_list_.length
        then c.evict_lru else c).cache_list_).length ≤ c.capacity_
    by_cases hfull : c.capacity_ ≤ c.cache_list_.length
    · rw [if_pos hfull]
      have hne : c.cache_list_ ≠ [] := by
        intro hnil
        rw [hnil] at hfull
        simp at hfull
        omega
      have hevict : (c.evict_lru).cache_list_ = c.cache_list_.dropLast := by
        unfold LRUCache.evict_lru
        match hl : c.cache_list_ with
        | [] => exact absurd hl hne
        | _ :: _ => rfl
      rw [hevict, List.length_cons, List.length_dropLast]
      omega
    · rw [if_neg hfull]
      rw [List.length_cons]
      omega

theorem runPuts_size_le {K V : Type} [DecidableEq K] :
    ∀ (ops : List (K × V)) (c : LRUCache K V), 0 < c.capacity_ →
      c.cache_list_.length ≤ c.capacity_ →
      (c.runPuts ops).cache_list_.length ≤ (c.runPuts ops).capacity_
      ∧ (c.runPuts ops).capacity_ = c.capacity_ := by
  intro ops
  induction ops with
  | nil =>
    intro c _ h2
    exact ⟨h2, rfl⟩
  | cons kv rest ih =>
    intro c h1 h2
    have hstep : c.runPuts (kv :: rest) = (c.put kv.1 kv.2).runPuts rest := rfl
    rw [hstep]
    have hcap := put_capacity_eq c kv.1 kv.2
    have h3 := ih (c.put kv.1 kv.2) (by rw [hcap]; exact h1)
      (by rw [hcap]; exact put_size_le c kv.1 kv.2 h1 h2)
    exact ⟨h3.1, by rw [h3.2, hcap]⟩

/-- Counterexample to C2 as stated: the claim quantifies over EVERY sequence
of allocate/deallocate calls, but a single deallocate of an in-range address
that was never handed out (here the arena base itself, on a fresh 2-block
pool) wraps the `size_t` usage counter from 0 to 2^64 − 1, far above the
configured block count. -/
theorem claim_C2_counterexample :
    ¬ (((MemoryPool.init 16 2 1000).run [PoolOp.dealloc 1000]).current_usage
        ≤ (MemoryPool.init 16 2 1000).capacity) := by
  decide

/-- C2 amended: (cache) for every sequence of `put` calls on a cache whose
capacity is positive (as every constructed cache's is), the size never
exceeds the capacity; (allocator) for every sequence of allocate/deallocate
calls from a fresh pool in which every deallocate passes an address that is
currently outstanding — allocated and not yet freed — the usage counter
never exceeds the configured block count.  (Unmatched deallocates of
in-range addresses wrap the `size_t` usage counter below zero, violating the
bound.) -/
theorem claim_C2_amended :
    (∀ (capacity : Nat), 0 < capacity → ∀ (ops : List (Nat × String)),
        ((LRUCache.empty capacity : LRUCache Nat String).runPuts ops).size ≤ capacity)
    ∧ (∀ (block_size block_count memory_start : Nat) (ops : List PoolOp),
        0 < memory_start → block_count < size_t_mod →
        validOps (MemoryPool.init block_size block_count memory_start) [] ops = true →
        ((MemoryPool.init block_size block_count memory_start).run ops).current_usage
          ≤ (MemoryPool.init block_size block_count memory_start).capacity) := by
  constructor
  · intro capacity hcap ops
    have h := runPuts_size_le ops (LRUCache.empty capacity : LRUCache Nat String)
      hcap (by simp [LRUCache.empty])
    show ((LRUCache.empty capacity : LRUCache Nat String).runPuts ops).cache_list_.length
        ≤ capacity
    have h1 := h.1
    rw [h.2] at h1
    exact h1
  · intro block_size block_count memory_start ops hstart hcount hv
    have hinv := poolInv_run ops _ []
      (poolInv_init block_size block_count memory_start hstart hcount) hv
    have hlen := hinv.part.length_eq
    rw [List.length_append, blockAddrs_length] at hlen
    have husage := hinv.usage_eq
    have hbc := run_block_count ops (MemoryPool.init block_size block_count memory_start)
    show ((MemoryPool.init block_size block_count memory_start).run ops).current_usage_
        ≤ (MemoryPool.init block_size block_count memory_start).block_count_
    omega

/-- Witness for C2 (amended): three puts into a capacity-2 cache keep size
at most 2, and an alloc followed by a matched dealloc keeps pool usage at
most the 2-block capacity. -/
theorem claim_C2_witness :
    ((LRUCache.empty 2 : LRUCache Nat String).runPuts
        [(1, "a"), (2, "b"), (3, "c")]).size ≤ 2
    ∧ ((MemoryPool.init 16 2 1000).run [PoolOp.alloc, PoolOp.dealloc 1000]).current_usage
        ≤ (MemoryPool.init 16 2 1000).capacity := by
  refine ⟨claim_C2_amended.1 2 (by decide) _,
    claim_C2_amended.2 16 2 1000 [PoolOp.alloc, PoolOp.dealloc 1000]
      (by decide) (by decide) (by decide)⟩
